import Mathlib

/-!
Verification of the MADE engine PMV playback core (engines/made/graphics.cpp and
engines/made/pmvplayer.cpp) against its natural-language specification.

Bytes are modelled as `Nat` (all values produced by the embedded code stay below
256 because they come from byte reads masked or copied verbatim); buffers are
`List Nat`; C pointers into buffers are positions (`Nat`).  Out-of-bounds reads,
which in C return unspecified bytes, are modelled by `List.getD _ _ 0`;
out-of-bounds writes, undefined behaviour in C, are modelled by `List.set`
(a no-op past the end).  Theorems that depend on memory contents carry the
bounds hypotheses under which the C code is well defined.
-/

set_option maxHeartbeats 1000000

namespace Made

/-- READ_LE_UINT16 from a byte buffer at position `p`. -/
def le16 (buf : List Nat) (p : Nat) : Nat :=
  buf.getD p 0 + buf.getD (p + 1) 0 * 256

/-- READ_LE_UINT32 from a byte buffer at position `p`. -/
def le32 (buf : List Nat) (p : Nat) : Nat :=
  buf.getD p 0 + buf.getD (p + 1) 0 * 256 + buf.getD (p + 2) 0 * 65536 +
    buf.getD (p + 3) 0 * 16777216

/-- State of the bitstream value reader (class ValueReader, made/graphics.cpp):
the byte pointer `_buffer` is split into the underlying buffer and a position. -/
structure ValueReader where
  buf : List Nat
  pos : Nat
  nibbleMode : Bool
  nibbleSwitch : Bool
deriving Repr, DecidableEq

/-- ValueReader::readPixel (graphics.cpp:33-48).  In nibble mode, when the
parity toggle is set the high nibble is returned and the byte pointer advances;
when clear the low nibble is returned without advancing; the toggle flips
either way.  In byte mode one byte is returned and consumed. -/
def ValueReader.readPixel (r : ValueReader) : Nat × ValueReader :=
  if r.nibbleMode then
    if r.nibbleSwitch then
      (((r.buf.getD r.pos 0) >>> 4) &&& 0x0F,
        { r with pos := r.pos + 1, nibbleSwitch := false })
    else
      ((r.buf.getD r.pos 0) &&& 0x0F, { r with nibbleSwitch := true })
  else
    (r.buf.getD r.pos 0, { r with pos := r.pos + 1 })

/-- ValueReader::readUint16 (graphics.cpp:50-54). -/
def ValueReader.readUint16 (r : ValueReader) : Nat × ValueReader :=
  (le16 r.buf r.pos, { r with pos := r.pos + 2 })

/-- ValueReader::readUint32 (graphics.cpp:56-60). -/
def ValueReader.readUint32 (r : ValueReader) : Nat × ValueReader :=
  (le32 r.buf r.pos, { r with pos := r.pos + 4 })

/-- ValueReader::resetNibbleSwitch (graphics.cpp:62-64): clears the parity
toggle. -/
def ValueReader.resetNibbleSwitch (r : ValueReader) : ValueReader :=
  { r with nibbleSwitch := false }

/-- Modelled from the spec: the ValueReader constructor lives in
made/graphics.h, which is not under src/.  Per the spec (section 4.3) a freshly
constructed reader is aligned at a byte boundary; resetNibbleSwitch — which is
in src/ and is documented as realigning the reader to a byte start — clears the
parity toggle, so the byte-aligned initial state has the toggle clear. -/
def mkValueReader (buffer : List Nat) (nibbleMode : Bool) : ValueReader :=
  ⟨buffer, 0, nibbleMode, false⟩

/-- rleDecompress (graphics.cpp:66-89).  A control byte below 0x80 declares a
literal run of `v + 1` bytes copied verbatim; otherwise `257 - v` copies of the
single following byte.  The C function writes into a preallocated buffer of
`maxSize` bytes; this embedding returns exactly the bytes written. -/
def rleDecompress : List Nat → List Nat
  | [] => []
  | v :: rest =>
    if v < 0x80 then
      rest.take (v + 1) ++ rleDecompress (rest.drop (v + 1))
    else
      List.replicate (257 - v) (rest.headD 0) ++ rleDecompress (rest.drop 1)
termination_by l => l.length
decreasing_by
  · simp only [List.length_drop, List.length_cons]; omega
  · simp only [List.length_drop, List.length_cons]; omega

/-- Spec-side definition for claim C3: the sum of the run lengths declared by
the control bytes of an RLE stream. -/
def rleDeclaredLen : List Nat → Nat
  | [] => 0
  | v :: rest =>
    if v < 0x80 then (v + 1) + rleDeclaredLen (rest.drop (v + 1))
    else (257 - v) + rleDeclaredLen (rest.drop 1)
termination_by l => l.length
decreasing_by
  · simp only [List.length_drop, List.length_cons]; omega
  · simp only [List.length_drop, List.length_cons]; omega

/-- An RLE stream is well formed when every declared run is fully backed by
source bytes (the C code reads past the end of the source otherwise). -/
def rleWellFormed : List Nat → Bool
  | [] => true
  | v :: rest =>
    if v < 0x80 then decide (v + 1 ≤ rest.length) && rleWellFormed (rest.drop (v + 1))
    else decide (1 ≤ rest.length) && rleWellFormed (rest.drop 1)
termination_by l => l.length
decreasing_by
  · simp only [List.length_drop, List.length_cons]; omega
  · simp only [List.length_drop, List.length_cons]; omega

theorem rleDecompress_length : ∀ (n : Nat) (src : List Nat), src.length ≤ n →
    rleWellFormed src = true → (rleDecompress src).length = rleDeclaredLen src := by
  intro n
  induction n with
  | zero =>
    intro src hlen _
    have : src = [] := List.eq_nil_of_length_eq_zero (Nat.le_zero.mp hlen)
    subst this
    simp [rleDecompress, rleDeclaredLen]
  | succ n ih =>
    intro src hlen hwf
    match src with
    | [] => simp [rleDecompress, rleDeclaredLen]
    | v :: rest =>
      rw [rleDecompress, rleDeclaredLen]
      rw [rleWellFormed] at hwf
      by_cases hv : v < 0x80
      · simp only [if_pos hv] at hwf ⊢
        rw [Bool.and_eq_true, decide_eq_true_eq] at hwf
        have hrec := ih (rest.drop (v + 1)) (by simp only [List.length_drop]; simp at hlen; omega) hwf.2
        simp only [List.length_append, hrec, List.length_take]
        omega
      · simp only [if_neg hv] at hwf ⊢
        rw [Bool.and_eq_true, decide_eq_true_eq] at hwf
        have hrec := ih (rest.drop 1) (by simp only [List.length_drop]; simp at hlen; omega) hwf.2
        simp only [List.length_append, hrec, List.length_replicate]

/-- memcpy of `n` bytes from `src` at `srcPos` into `dest` at `destPos`,
one byte at a time (C writes past the end are dropped by `List.set`). -/
def memcpyList (dest : List Nat) (destPos : Nat) (src : List Nat) (srcPos : Nat) : Nat → List Nat
  | 0 => dest
  | n + 1 => memcpyList (dest.set destPos (src.getD srcPos 0)) (destPos + 1) src (srcPos + 1) n

/-- Graphics::Surface at the level used by the decoders: dimensions, row
stride, and the raw pixel bytes. -/
structure Surface where
  w : Nat
  h : Nat
  pitch : Nat
  pixels : List Nat
deriving Repr, DecidableEq

/-- The per-block destination offset table of decompressImage
(graphics.cpp:103-108): entry `i` is `(i / 4) * width + i % 4`. -/
def offsets (width i : Nat) : Nat := i / 4 * width + i % 4

/-- One 4x4 block fill into the band-local line buffer: cell `i` (0..15) is
written at `dofs + offsets width i`, in increasing `i`, mirroring the
`for (int i = 0; i < 16; i++)` loops of decompressImage. -/
def writeBlock (width dofs : Nat) (f : Nat → Nat) (lineBuf : List Nat) : List Nat :=
  (List.range 16).foldl (fun lb i => lb.set (dofs + offsets width i) (f i)) lineBuf

/-- `n` successive ValueReader::readPixel calls, returning the values in call
order together with the final reader state. -/
def readPixelsN : Nat → ValueReader → List Nat × ValueReader
  | 0, r => ([], r)
  | n + 1, r =>
    let v := r.readPixel
    let rest := readPixelsN n v.2
    (v.1 :: rest.1, rest.2)

/-- The mutable state threaded through one band of the keyframe/delta decoder:
the band-local line buffer and the two bitstream readers. -/
structure ImgState where
  lineBuf : List Nat
  pixelReader : ValueReader
  maskReader : ValueReader
deriving Repr, DecidableEq

/-- One 2-bit opcode of decompressImage (graphics.cpp:169-211): 0 = solid,
1 = 2-color with 16-bit mask, 2 = 4-color with 32-bit mask, 3 = no-op on delta
frames, and on non-delta frames a realign of the mask stream followed by 16
literal pixels read from the mask stream.  `dofs` is `drawDestOfs`. -/
def imgOpcode (width : Nat) (deltaFrame : Bool) (dofs cmd : Nat) (s : ImgState) : ImgState :=
  if cmd = 0 then
    let p := s.pixelReader.readPixel
    { s with pixelReader := p.2, lineBuf := writeBlock width dofs (fun _ => p.1) s.lineBuf }
  else if cmd = 1 then
    let p0 := s.pixelReader.readPixel
    let p1 := p0.2.readPixel
    let m := s.maskReader.readUint16
    { lineBuf := writeBlock width dofs (fun i => [p0.1, p1.1].getD ((m.1 >>> i) &&& 1) 0) s.lineBuf,
      pixelReader := p1.2, maskReader := m.2 }
  else if cmd = 2 then
    let p0 := s.pixelReader.readPixel
    let p1 := p0.2.readPixel
    let p2 := p1.2.readPixel
    let p3 := p2.2.readPixel
    let m := s.maskReader.readUint32
    { lineBuf := writeBlock width dofs
        (fun i => [p0.1, p1.1, p2.1, p3.1].getD ((m.1 >>> (2 * i)) &&& 3) 0) s.lineBuf,
      pixelReader := p3.2, maskReader := m.2 }
  else if cmd = 3 then
    if deltaFrame then s
    else
      let mr := readPixelsN 16 s.maskReader.resetNibbleSwitch
      { s with maskReader := mr.2,
               lineBuf := writeBlock width dofs (fun i => mr.1.getD i 0) s.lineBuf }
  else s

/-- The inner `for (curCmd = 0; curCmd < bitCount; curCmd++)` loop of
decompressImage: peel 2-bit opcodes off `bits`, one block each, advancing
`drawDestOfs` by 4 per opcode.  Returns the state and the final offset. -/
def runCmds (width : Nat) (delta : Bool) : Nat → Nat → Nat → ImgState → ImgState × Nat
  | 0, _, dofs, s => (s, dofs)
  | n + 1, bits, dofs, s =>
    runCmds width delta n (bits >>> 2) (dofs + 4) (imgOpcode width delta dofs (bits &&& 3) s)

/-- The `for (bitBufOfs = 0; bitBufOfs < lineSize; bitBufOfs += 2)` loop of
decompressImage: each 16-bit group carries 8 opcodes, except the group at
`lastOfs` which carries `lastCount`. -/
def runGroups (width : Nat) (delta : Bool) (bitBuf : List Nat)
    (lineSize lastOfs lastCount : Nat) (ofs dofs : Nat) (s : ImgState) : ImgState :=
  if ofs < lineSize then
    let bits := le16 bitBuf ofs
    let cnt := if ofs = lastOfs then lastCount else 8
    let r := runCmds width delta cnt bits dofs s
    runGroups width delta bitBuf lineSize lastOfs lastCount (ofs + 2) r.2 r.1
  else s
termination_by lineSize - ofs

/-- One destination row of the delta-frame band commit
(graphics.cpp:219-223): cells equal to 0 leave the destination byte as it was,
nonzero cells overwrite it; the destination cursor advances every cell. -/
def commitDeltaRow (lineBuf : List Nat) (lineOfs : Nat) (dest : List Nat) (destPos : Nat) :
    Nat → List Nat
  | 0 => dest
  | n + 1 =>
    let v := lineBuf.getD lineOfs 0
    commitDeltaRow lineBuf (lineOfs + 1) (if v ≠ 0 then dest.set destPos v else dest)
      (destPos + 1) n

/-- The delta-frame band commit of decompressImage (graphics.cpp:217-225):
up to 4 rows (`fuel` starts at 4), stopping early when `height` runs out;
`y` is the row index within the band; after each row the destination cursor
advances by `width` (one `destPtr++` per cell) plus `pitch - width`. -/
def commitDelta (width pitch : Nat) (lineBuf : List Nat) :
    Nat → Nat → List Nat → Nat → Nat → List Nat × Nat × Nat
  | 0, _, dest, destPos, height => (dest, destPos, height)
  | f + 1, y, dest, destPos, height =>
    if height = 0 then (dest, destPos, height)
    else
      commitDelta width pitch lineBuf f (y + 1)
        (commitDeltaRow lineBuf (y * width) dest destPos width)
        (destPos + width + (pitch - width)) (height - 1)

/-- The non-delta band commit of decompressImage (graphics.cpp:226-231):
memcpy of each of up to 4 rows, the destination cursor advancing by `pitch`
per row. -/
def commitFull (width pitch : Nat) (lineBuf : List Nat) :
    Nat → Nat → List Nat → Nat → Nat → List Nat × Nat × Nat
  | 0, _, dest, destPos, height => (dest, destPos, height)
  | f + 1, y, dest, destPos, height =>
    if height = 0 then (dest, destPos, height)
    else
      commitFull width pitch lineBuf f (y + 1)
        (memcpyList dest destPos lineBuf (y * width) width)
        (destPos + pitch) (height - 1)

theorem commitDelta_height (width pitch : Nat) (lineBuf : List Nat) :
    ∀ (f y : Nat) (dest : List Nat) (destPos height : Nat),
      (commitDelta width pitch lineBuf f y dest destPos height).2.2 = height - min f height := by
  intro f
  induction f with
  | zero => intro y dest destPos height; simp [commitDelta]
  | succ f ih =>
    intro y dest destPos height
    rw [commitDelta]
    by_cases h : height = 0
    · simp [h]
    · simp only [if_neg h, ih]
      omega

theorem commitFull_height (width pitch : Nat) (lineBuf : List Nat) :
    ∀ (f y : Nat) (dest : List Nat) (destPos height : Nat),
      (commitFull width pitch lineBuf f y dest destPos height).2.2 = height - min f height := by
  intro f
  induction f with
  | zero => intro y dest destPos height; simp [commitFull]
  | succ f ih =>
    intro y dest destPos height
    rw [commitFull]
    by_cases h : height = 0
    · simp [h]
    · simp only [if_neg h, ih]
      omega

/-- The outer `while (height > 0)` band loop of decompressImage
(graphics.cpp:143-232): per band the line buffer is zeroed, one line-sized
command record is copied out of the command stream, decoded into the line
buffer, and committed to the destination (delta or full).  The 40-byte
`bitBuf` stack array is modelled by the copied record itself; its bytes past
`lineSize` are uninitialized in C and read as 0 here. -/
def decodeBands (width pitch lineSize lastOfs lastCount : Nat) (delta : Bool)
    (cmdBuffer : List Nat) (height cmdPos destPos : Nat) (pr mr : ValueReader)
    (dest : List Nat) : List Nat :=
  if _h : 0 < height then
    let bitBuf := (cmdBuffer.drop cmdPos).take lineSize
    let s1 := runGroups width delta bitBuf lineSize lastOfs lastCount 0 0
      ⟨List.replicate 2560 0, pr, mr⟩
    let c :=
      if delta then commitDelta width pitch s1.lineBuf 4 0 dest destPos height
      else commitFull width pitch s1.lineBuf 4 0 dest destPos height
    decodeBands width pitch lineSize lastOfs lastCount delta cmdBuffer c.2.2
      (cmdPos + lineSize) c.2.1 s1.pixelReader s1.maskReader c.1
  else dest
termination_by height
decreasing_by
  split
  · rw [commitDelta_height]; omega
  · rw [commitFull_height]; omega

/-- decompressImage (graphics.cpp:91-241), the keyframe/delta decoder.
Reserved flag bits abort via error(), modelled as `none`; otherwise the three
streams are RLE-expanded as flagged and the band loop runs over the surface. -/
def decompressImage (source : List Nat) (surface : Surface)
    (cmdOffs pixelOffs maskOffs cmdSize pixelSize maskSize lineSize : Nat)
    (cmdFlags pixelFlags maskFlags : Nat) (deltaFrame : Bool) : Option Surface :=
  if maskFlags &&& 0b11111100 ≠ 0 ∨ pixelFlags &&& 0b11111100 ≠ 0 ∨
      cmdFlags &&& 0b11111110 ≠ 0 then
    none
  else
    let width := surface.w
    let height := surface.h
    let pitch := surface.pitch
    let cmdBuffer :=
      if cmdFlags &&& 1 ≠ 0 then rleDecompress ((source.drop cmdOffs).take cmdSize)
      else source.drop cmdOffs
    let maskBuffer :=
      if maskFlags &&& 1 ≠ 0 then rleDecompress ((source.drop maskOffs).take maskSize)
      else source.drop maskOffs
    let maskReader := mkValueReader maskBuffer (maskFlags &&& 2 != 0)
    let pixelBuffer :=
      if pixelFlags &&& 1 ≠ 0 then rleDecompress ((source.drop pixelOffs).take pixelSize)
      else source.drop pixelOffs
    let pixelReader := mkValueReader pixelBuffer (pixelFlags &&& 2 != 0)
    let lastOfs := ((lineSize + 1) >>> 1 <<< 1) - 2
    let lastCount0 := ((width + 3) >>> 2) &&& 7
    let lastCount := if lastCount0 = 0 then 8 else lastCount0
    some { surface with
      pixels := decodeBands width pitch lineSize lastOfs lastCount deltaFrame cmdBuffer
        height 0 0 pixelReader maskReader surface.pixels }

/-- The mutable state threaded through the streaming/movie decoder
(decompressMovieImage): flat cursors into the pixel and mask streams, the
destination pixels, and the running block origin `(bx, by)`. -/
structure MovState where
  pixelPos : Nat
  maskPos : Nat
  dest : List Nat
  bx : Nat
  byy : Nat
deriving Repr, DecidableEq

/-- The 16-cell block computed by one opcode of decompressMovieImage
(graphics.cpp:306-343), together with the advanced stream cursors.  Opcode 3
computes no block (the C `block` array stays uninitialized, modelled as
zeros) and consumes nothing. -/
def movieBlock (pixelBuffer maskBuffer : List Nat) (pixelPos maskPos cmd : Nat) :
    List Nat × Nat × Nat :=
  if cmd = 0 then
    (List.replicate 16 (pixelBuffer.getD pixelPos 0), pixelPos + 1, maskPos)
  else if cmd = 1 then
    let p0 := pixelBuffer.getD pixelPos 0
    let p1 := pixelBuffer.getD (pixelPos + 1) 0
    let mask := le16 maskBuffer maskPos
    ((List.range 16).map (fun i => [p0, p1].getD ((mask >>> i) &&& 1) 0),
      pixelPos + 2, maskPos + 2)
  else if cmd = 2 then
    let p0 := pixelBuffer.getD pixelPos 0
    let p1 := pixelBuffer.getD (pixelPos + 1) 0
    let p2 := pixelBuffer.getD (pixelPos + 2) 0
    let p3 := pixelBuffer.getD (pixelPos + 3) 0
    let mask := le32 maskBuffer maskPos
    ((List.range 16).map (fun i => [p0, p1, p2, p3].getD ((mask >>> (2 * i)) &&& 3) 0),
      pixelPos + 4, maskPos + 4)
  else (List.replicate 16 0, pixelPos, maskPos)

/-- The clipped block blit of decompressMovieImage (graphics.cpp:345-355):
`min 4 (width - bx)` cells per row, `min 4 (height - by)` rows, row `r` of the
block copied to destination offset `bx + (by + r) * width`.  (When `by`
exceeds `height` the C loop bound underflows and writes out of bounds; the
Nat model performs no rows there.) -/
def blitBlock (width height : Nat) (block : List Nat) (dest : List Nat) (bx byy : Nat) :
    List Nat :=
  (List.range (min 4 (height - byy))).foldl
    (fun d r => memcpyList d (bx + (byy + r) * width) block (4 * r) (min 4 (width - bx))) dest

/-- One opcode step of decompressMovieImage: compute the block, blit it unless
the opcode is 3, then advance the block origin in raster order across the
aligned band width `bw` (graphics.cpp:299-362). -/
def movieOpcode (width height bw : Nat) (pixelBuffer maskBuffer : List Nat) (cmd : Nat)
    (s : MovState) : MovState :=
  let r := movieBlock pixelBuffer maskBuffer s.pixelPos s.maskPos cmd
  let dest1 := if cmd ≠ 3 then blitBlock width height r.1 s.dest s.bx s.byy else s.dest
  let bx1 := s.bx + 4
  if bx1 ≥ bw then
    { pixelPos := r.2.1, maskPos := r.2.2, dest := dest1, bx := 0, byy := s.byy + 4 }
  else
    { pixelPos := r.2.1, maskPos := r.2.2, dest := dest1, bx := bx1, byy := s.byy }

/-- The inner opcode loop of decompressMovieImage over one 16-bit group. -/
def movieRunCmds (width height bw : Nat) (pixelBuffer maskBuffer : List Nat) :
    Nat → Nat → MovState → MovState
  | 0, _, s => s
  | n + 1, bits, s =>
    movieRunCmds width height bw pixelBuffer maskBuffer n (bits >>> 2)
      (movieOpcode width height bw pixelBuffer maskBuffer (bits &&& 3) s)

/-- The 16-bit-group loop of decompressMovieImage (graphics.cpp:289-365). -/
def movieRunGroups (width height bw lineSize lastOfs lastCount : Nat)
    (pixelBuffer maskBuffer bitBuf : List Nat) (ofs : Nat) (s : MovState) : MovState :=
  if ofs < lineSize then
    let bits := le16 bitBuf ofs
    let cnt := if ofs = lastOfs then lastCount else 8
    movieRunGroups width height bw lineSize lastOfs lastCount pixelBuffer maskBuffer bitBuf
      (ofs + 2) (movieRunCmds width height bw pixelBuffer maskBuffer cnt bits s)
  else s
termination_by lineSize - ofs

/-- The outer band loop of decompressMovieImage (graphics.cpp:284-369):
height is decremented by 4 unconditionally.  (In C `height` is uint16, so a
height that is not a multiple of 4 wraps around and the loop never exits;
Nat subtraction instead stops at 0 after the last partial band.) -/
def movieBands (width height0 bw lineSize lastOfs lastCount : Nat)
    (pixelBuffer maskBuffer cmdBuffer : List Nat) (height cmdPos : Nat) (s : MovState) :
    MovState :=
  if 0 < height then
    let bitBuf := (cmdBuffer.drop cmdPos).take lineSize
    let s1 := movieRunGroups width height0 bw lineSize lastOfs lastCount pixelBuffer
      maskBuffer bitBuf 0 s
    movieBands width height0 bw lineSize lastOfs lastCount pixelBuffer maskBuffer cmdBuffer
      (height - 4) (cmdPos + lineSize) s1
  else s
termination_by height

/-- decompressMovieImage (graphics.cpp:243-378), the streaming/movie decoder.
There is no flag validation; bit 0 of each flag byte selects RLE expansion and
all other bits are ignored. -/
def decompressMovieImage (source : List Nat) (surface : Surface)
    (cmdOffs pixelOffs maskOffs cmdSize pixelSize maskSize lineSize : Nat)
    (cmdFlags pixelFlags maskFlags : Nat) : Surface :=
  let width := surface.w
  let height := surface.h
  let alignW := (width + 3) / 4
  let bw := alignW * 4
  let cmdBuffer :=
    if cmdFlags &&& 1 ≠ 0 then rleDecompress ((source.drop cmdOffs).take cmdSize)
    else source.drop cmdOffs
  let pixelBuffer :=
    if pixelFlags &&& 1 ≠ 0 then rleDecompress ((source.drop pixelOffs).take pixelSize)
    else source.drop pixelOffs
  let maskBuffer :=
    if maskFlags &&& 1 ≠ 0 then rleDecompress ((source.drop maskOffs).take maskSize)
    else source.drop maskOffs
  let lastOfs := ((lineSize + 1) >>> 1 <<< 1) - 2
  let lastCount0 := ((width + 3) >>> 2) &&& 7
  let lastCount := if lastCount0 = 0 then 8 else lastCount0
  let s := movieBands width height bw lineSize lastOfs lastCount pixelBuffer maskBuffer
    cmdBuffer height 0 ⟨0, 0, surface.pixels, 0, 0⟩
  { surface with pixels := s.dest }

/-- The `while (palData < palDataEnd)` loop of PmvPlayer::decompressPalette
(pmvplayer.cpp:282-292): each record is a `(count, paletteIndex)` pair followed
by `count + 1` RGB triples memcpy-ed to palette entry `paletteIndex`; the pair
`(255, 255)` terminates early.  (With fewer than two bytes left the C code
reads past the end; such bytes read as 0 here.) -/
def decompressPaletteLoop (palData : List Nat) (pos : Nat) (outPal : List Nat) : List Nat :=
  if pos < palData.length then
    let count := palData.getD pos 0
    let entry := palData.getD (pos + 1) 0
    if count = 255 ∧ entry = 255 then outPal
    else
      decompressPaletteLoop palData (pos + 2 + (count + 1) * 3)
        (memcpyList outPal (entry * 3) palData (pos + 2) ((count + 1) * 3))
  else outPal
termination_by palData.length - pos

/-- PmvPlayer::decompressPalette: the patch data runs from `palData` to
`palData + palDataSize`. -/
def decompressPalette (palData : List Nat) (outPal : List Nat) (palDataSize : Nat) :
    List Nat :=
  decompressPaletteLoop (palData.take palDataSize) 0 outPal

/-- MKTAG of the container chunk tags, as read big-endian. -/
def tagMOVE : Nat := 0x4D4F5645

/-- MKTAG of the metadata chunk. -/
def tagMHED : Nat := 0x4D484544

/-- MKTAG of a frame chunk. -/
def tagMFRM : Nat := 0x4D46524D

/-- The sequential byte source behind Common::File as used by the player:
remaining reads happen at `pos`; `eosFlag` is set by a read that came up
short. -/
structure ByteStream where
  data : List Nat
  pos : Nat
  eosFlag : Bool
deriving Repr, DecidableEq

/-- File::read of `n` bytes: returns the bytes actually available (possibly
fewer than `n`, which sets the end-of-stream flag). -/
def ByteStream.readBytes (s : ByteStream) (n : Nat) : List Nat × ByteStream :=
  let got := (s.data.drop s.pos).take n
  (got, { s with pos := s.pos + got.length, eosFlag := s.eosFlag || decide (got.length < n) })

/-- File::readUint32BE; missing bytes read as 0. -/
def ByteStream.readUint32BE (s : ByteStream) : Nat × ByteStream :=
  let r := s.readBytes 4
  (r.1.getD 0 0 * 16777216 + r.1.getD 1 0 * 65536 + r.1.getD 2 0 * 256 + r.1.getD 3 0, r.2)

/-- File::readUint32LE; missing bytes read as 0. -/
def ByteStream.readUint32LE (s : ByteStream) : Nat × ByteStream :=
  let r := s.readBytes 4
  (r.1.getD 0 0 + r.1.getD 1 0 * 256 + r.1.getD 2 0 * 65536 + r.1.getD 3 0 * 16777216, r.2)

/-- File::readUint16LE; missing bytes read as 0. -/
def ByteStream.readUint16LE (s : ByteStream) : Nat × ByteStream :=
  let r := s.readBytes 2
  (r.1.getD 0 0 + r.1.getD 1 0 * 256, r.2)

/-- PmvPlayer::readChunk (pmvplayer.cpp:271-280): 4 big-endian tag bytes then
a 4-byte little-endian length. -/
def readChunk (fd : ByteStream) : Nat × Nat × ByteStream :=
  let t := fd.readUint32BE
  let sz := t.2.readUint32LE
  (t.1, sz.1, sz.2)

/-- Input events as far as the player inspects them: key-down events carry a
keycode, everything else is opaque. -/
inductive PmvEvent where
  | keyDown (keycode : Nat)
  | otherEvent
deriving Repr, DecidableEq

/-- Common::KEYCODE_ESCAPE (external constant). -/
def KEYCODE_ESCAPE : Nat := 27

/-- Calls the player makes into the display sink, recorded as a trace. -/
inductive ScreenOp where
  | setPalette (pal : List Nat)
  | blit (pixels : List Nat) (pitch x y w h : Nat)
deriving Repr, DecidableEq

/-- Resource release actions of PmvPlayer::close, recorded as a trace. -/
inductive ReleaseOp where
  | surfaceRes
  | frameBufferRes
  | audioRes
  | streamRes
deriving Repr, DecidableEq

/-- The state owned by the playback driver across one session. -/
structure PmvState where
  fd : ByteStream
  paletteRGB : List Nat
  surface : Option Surface
  screenOps : List ScreenOp
  audioQueue : List (List Nat)
  frameData : Option (List Nat)
  frameDataSize : Nat
  allocCount : Nat
  frameNumber : Nat
  frameCount : Nat
  frameDelay : Nat
  soundFreq : Nat
  soundState : Nat
deriving Repr, DecidableEq

/-- The external decompressSound transform: compressed bytes, chunk size,
chunk count and session decoder state in; PCM bytes and new state out. -/
def SoundDecoder : Type :=
  List Nat → Nat → Nat → Nat → List Nat × Nat

/-- The sub-chunk application section of PmvPlayer::decode_frame
(pmvplayer.cpp:138-198): extract the three sub-offsets from the frame payload
`buf1` and, in order, decode and queue audio, apply a palette patch and push it
to the screen, and decode and blit the image sub-chunk. -/
def applyFrameEffects (dsound : SoundDecoder) (screenW screenH : Nat) (buf1 : List Nat)
    (s1 : PmvState) : PmvState :=
  let soundChunkOfs := le32 buf1 8
  let imageDataOfs := le32 buf1 12
  let palChunkOfs := le32 buf1 16
  let s2 :=
    if soundChunkOfs ≠ 0 then
      let base := soundChunkOfs - 8
      let soundChunkSize := le16 buf1 (base + 4)
      let chunkCount := le16 buf1 (base + 6)
      let snd := dsound (buf1.drop (base + 8)) soundChunkSize chunkCount s1.soundState
      { s1 with audioQueue := s1.audioQueue ++ [snd.1], soundState := snd.2 }
    else s1
  let s3 :=
    if palChunkOfs ≠ 0 then
      let base := palChunkOfs - 8
      let palSize := le32 buf1 (base + 4)
      let newPal := decompressPalette (buf1.drop (base + 8)) s2.paletteRGB palSize
      { s2 with paletteRGB := newPal,
                screenOps := s2.screenOps ++ [ScreenOp.setPalette newPal] }
    else s2
  if imageDataOfs ≠ 0 then
    let base := imageDataOfs - 8
    let imageData := buf1.drop base
    let imageChunkSize := le32 imageData 0 + 4
    let width := le16 imageData 8
    let height := le16 imageData 10
    let cmdOffs := le16 imageData 12
    let cmdFlags := le16 imageData 14
    let pixelOffs := le16 imageData 16
    let pixelFlags := le16 imageData 18
    let maskOffs := le16 imageData 20
    let maskFlags := le16 imageData 22
    let lineSize := le16 imageData 24
    let surf0 :=
      match s3.surface with
      | some sf => sf
      | none => Surface.mk width height width (List.replicate (width * height) 0)
    let surf1 := decompressMovieImage imageData surf0 cmdOffs pixelOffs maskOffs
      (pixelOffs - cmdOffs) (maskOffs - pixelOffs) (imageChunkSize - maskOffs) lineSize
      cmdFlags pixelFlags maskFlags
    { s3 with surface := some surf1,
              screenOps := s3.screenOps ++
                [ScreenOp.blit surf1.pixels surf1.pitch ((screenW - surf1.w) / 2)
                  ((screenH - surf1.h) / 2) surf1.w surf1.h] }
  else s3

/-- PmvPlayer::decode_frame (pmvplayer.cpp:115-203).  Reads one chunk; a tag
other than MFRM or a short payload read returns false.  Otherwise the frame's
sub-chunks are applied and the frame counter is incremented.  `allocCount`
counts frame-buffer allocations (`new byte[]`); a fresh buffer's bytes are
uninitialized in C and modelled as 0. -/
def decode_frame (dsound : SoundDecoder) (screenW screenH : Nat) (s : PmvState) :
    Bool × PmvState :=
  let rc := readChunk s.fd
  let chunkType := rc.1
  let chunkSize := rc.2.1
  let fd1 := rc.2.2
  if chunkType ≠ tagMFRM then (false, { s with fd := fd1 })
  else
    let realloc : Bool := decide (s.frameDataSize < chunkSize) || decide (s.frameData = none)
    let buf0 : List Nat := if realloc then List.replicate chunkSize 0 else s.frameData.getD []
    let size1 := if realloc then chunkSize else s.frameDataSize
    let alloc1 := if realloc then s.allocCount + 1 else s.allocCount
    let rd := fd1.readBytes chunkSize
    let payload := rd.1
    let fd2 := rd.2
    let buf1 := memcpyList buf0 0 payload 0 payload.length
    let s1 := { s with fd := fd2, frameData := some buf1, frameDataSize := size1,
                       allocCount := alloc1 }
    if payload.length < chunkSize || fd2.eosFlag then (false, s1)
    else
      let s4 := applyFrameEffects dsound screenW screenH buf1 s1
      (true, { s4 with frameNumber := s4.frameNumber + 1 })

theorem applyFrameEffects_fields (dsound : SoundDecoder) (screenW screenH : Nat)
    (buf1 : List Nat) (s1 : PmvState) :
    (applyFrameEffects dsound screenW screenH buf1 s1).frameData = s1.frameData ∧
    (applyFrameEffects dsound screenW screenH buf1 s1).frameDataSize = s1.frameDataSize ∧
    (applyFrameEffects dsound screenW screenH buf1 s1).allocCount = s1.allocCount ∧
    (applyFrameEffects dsound screenW screenH buf1 s1).frameNumber = s1.frameNumber ∧
    (applyFrameEffects dsound screenW screenH buf1 s1).frameCount = s1.frameCount ∧
    (applyFrameEffects dsound screenW screenH buf1 s1).frameDelay = s1.frameDelay ∧
    (applyFrameEffects dsound screenW screenH buf1 s1).fd = s1.fd ∧
    (∃ t, (applyFrameEffects dsound screenW screenH buf1 s1).audioQueue =
      s1.audioQueue ++ t) ∧
    (∃ t, (applyFrameEffects dsound screenW screenH buf1 s1).screenOps =
      s1.screenOps ++ t) := by
  simp only [applyFrameEffects]
  split_ifs <;> simp

theorem applyFrameEffects_frameData (dsound : SoundDecoder) (screenW screenH : Nat)
    (buf1 : List Nat) (s1 : PmvState) :
    (applyFrameEffects dsound screenW screenH buf1 s1).frameData = s1.frameData :=
  (applyFrameEffects_fields dsound screenW screenH buf1 s1).1

theorem applyFrameEffects_frameDataSize (dsound : SoundDecoder) (screenW screenH : Nat)
    (buf1 : List Nat) (s1 : PmvState) :
    (applyFrameEffects dsound screenW screenH buf1 s1).frameDataSize = s1.frameDataSize :=
  (applyFrameEffects_fields dsound screenW screenH buf1 s1).2.1

theorem applyFrameEffects_allocCount (dsound : SoundDecoder) (screenW screenH : Nat)
    (buf1 : List Nat) (s1 : PmvState) :
    (applyFrameEffects dsound screenW screenH buf1 s1).allocCount = s1.allocCount :=
  (applyFrameEffects_fields dsound screenW screenH buf1 s1).2.2.1

theorem applyFrameEffects_frameNumber (dsound : SoundDecoder) (screenW screenH : Nat)
    (buf1 : List Nat) (s1 : PmvState) :
    (applyFrameEffects dsound screenW screenH buf1 s1).frameNumber = s1.frameNumber :=
  (applyFrameEffects_fields dsound screenW screenH buf1 s1).2.2.2.1

theorem applyFrameEffects_frameCount (dsound : SoundDecoder) (screenW screenH : Nat)
    (buf1 : List Nat) (s1 : PmvState) :
    (applyFrameEffects dsound screenW screenH buf1 s1).frameCount = s1.frameCount :=
  (applyFrameEffects_fields dsound screenW screenH buf1 s1).2.2.2.2.1

theorem applyFrameEffects_frameDelay (dsound : SoundDecoder) (screenW screenH : Nat)
    (buf1 : List Nat) (s1 : PmvState) :
    (applyFrameEffects dsound screenW screenH buf1 s1).frameDelay = s1.frameDelay :=
  (applyFrameEffects_fields dsound screenW screenH buf1 s1).2.2.2.2.2.1

theorem applyFrameEffects_fd (dsound : SoundDecoder) (screenW screenH : Nat)
    (buf1 : List Nat) (s1 : PmvState) :
    (applyFrameEffects dsound screenW screenH buf1 s1).fd = s1.fd :=
  (applyFrameEffects_fields dsound screenW screenH buf1 s1).2.2.2.2.2.2.1

theorem applyFrameEffects_audioQueue (dsound : SoundDecoder) (screenW screenH : Nat)
    (buf1 : List Nat) (s1 : PmvState) :
    ∃ t, (applyFrameEffects dsound screenW screenH buf1 s1).audioQueue =
      s1.audioQueue ++ t :=
  (applyFrameEffects_fields dsound screenW screenH buf1 s1).2.2.2.2.2.2.2.1

theorem applyFrameEffects_screenOps (dsound : SoundDecoder) (screenW screenH : Nat)
    (buf1 : List Nat) (s1 : PmvState) :
    ∃ t, (applyFrameEffects dsound screenW screenH buf1 s1).screenOps =
      s1.screenOps ++ t :=
  (applyFrameEffects_fields dsound screenW screenH buf1 s1).2.2.2.2.2.2.2.2

/-- PmvPlayer::close (pmvplayer.cpp:205-228): releases the surface, the frame
data buffer, the audio resources and the stream, in that order, and clears the
corresponding fields. -/
def close (s : PmvState) : List ReleaseOp × PmvState :=
  ([ReleaseOp.surfaceRes, ReleaseOp.frameBufferRes, ReleaseOp.audioRes, ReleaseOp.streamRes],
   { s with surface := none, frameData := none, frameDataSize := 0,
            fd := ByteStream.mk [] 0 false })

/-- PmvPlayer::load (pmvplayer.cpp:46-113).  `none` as input models a failed
file open.  The two leading chunk tags are validated, the metadata header is
parsed (with the two documented frequency substitutions), and the initial
768-byte palette is read and pushed to the screen.  A short palette read
leaves the unread tail of the member array, modelled as 0. -/
def load : Option (List Nat) → Option PmvState
  | none => none
  | some data =>
    let c1 := readChunk (ByteStream.mk data 0 false)
    if c1.1 ≠ tagMOVE then none
    else
      let c2 := readChunk c1.2.2
      if c2.1 ≠ tagMHED then none
      else
        let r1 := c2.2.2.readUint16LE
        let fd1 := (r1.2.readBytes 4).2
        let r2 := fd1.readUint16LE
        let fd2 := (r2.2.readBytes 4).2
        let r3 := fd2.readUint16LE
        let freq0 := r3.1
        let freq1 := if freq0 = 11127 then 11025 else freq0
        let freq := if freq1 = 22254 then 22050 else freq1
        let fd3 := (r3.2.readBytes 44).2
        let rp := fd3.readBytes 768
        let pal := rp.1 ++ List.replicate (768 - rp.1.length) 0
        some { fd := rp.2, paletteRGB := pal, surface := none,
               screenOps := [ScreenOp.setPalette pal], audioQueue := [],
               frameData := none, frameDataSize := 0, allocCount := 0,
               frameNumber := 0, frameCount := r2.1, frameDelay := r1.1,
               soundFreq := freq, soundState := 0 }

/-- What the environment feeds one iteration of the play loop: the external
quit request, the pending input events, and the wall-clock time that decoding
the frame consumed. -/
structure IterEnv where
  quitFlag : Bool
  events : List PmvEvent
  elapse : Nat
deriving Repr, DecidableEq

/-- The observable record of one executed play-loop iteration: the events
polled after presenting, and whether the A/V-sync lag diagnostic fired. -/
structure PlayIter where
  polled : List PmvEvent
  lagged : Bool
deriving Repr, DecidableEq

/-- The frame-presentation timing of PmvPlayer::play (pmvplayer.cpp:242-249):
`delayTime = (frameNumber - 1) * frameDelay - (now - startTime)`; when
negative the lag warning fires and presentation is immediate, otherwise the
driver blocks for `delayTime` milliseconds.  Returns the wall clock after the
wait and the lag flag. -/
def framePresent (startTime frameDelay frameNumber now : Nat) : Nat × Bool :=
  let delayTime : Int := ((frameNumber : Int) - 1) * frameDelay - ((now : Int) - startTime)
  if delayTime < 0 then (now, true) else (now + delayTime.toNat, false)

/-- The event-polling loop of PmvPlayer::play (pmvplayer.cpp:252-262): an
ESCAPE key-down sets the abort flag; nothing clears it. -/
def pollEventsAbort (events : List PmvEvent) (aborted : Bool) : Bool :=
  events.foldl
    (fun ab e =>
      match e with
      | PmvEvent.keyDown k => if k = KEYCODE_ESCAPE then true else ab
      | PmvEvent.otherEvent => ab)
    aborted

/-- Whether an event batch contains the cancel (ESCAPE key-down) event. -/
def escIn (events : List PmvEvent) : Bool :=
  events.any (fun e => decide (e = PmvEvent.keyDown KEYCODE_ESCAPE))

theorem decode_frame_frame_fields (dsound : SoundDecoder) (screenW screenH : Nat)
    (s : PmvState) :
    ((decode_frame dsound screenW screenH s).1 = true →
      (decode_frame dsound screenW screenH s).2.frameNumber = s.frameNumber + 1) ∧
    (decode_frame dsound screenW screenH s).2.frameCount = s.frameCount ∧
    (decode_frame dsound screenW screenH s).2.frameDelay = s.frameDelay := by
  simp only [decode_frame]
  split
  · simp
  · split
    · simp
    · simp [applyFrameEffects_frameNumber, applyFrameEffects_frameCount,
        applyFrameEffects_frameDelay]

/-- The `while` loop of PmvPlayer::play (pmvplayer.cpp:236-263).  Iteration
`i` runs when no quit is requested, the abort flag is clear, the stream has
not ended and frames remain; it decodes a frame (breaking out on failure),
waits out the frame deadline, presents, and polls events.  Returns the abort
flag, the final state, the final wall clock and the per-iteration records. -/
def playLoop (dsound : SoundDecoder) (screenW screenH : Nat) (env : Nat → IterEnv)
    (startTime : Nat) (i now : Nat) (aborted : Bool) (s : PmvState) :
    Bool × PmvState × Nat × List PlayIter :=
  if hcond : (env i).quitFlag = false ∧ aborted = false ∧ s.fd.eosFlag = false ∧
      s.frameNumber < s.frameCount then
    let df := decode_frame dsound screenW screenH s
    if hok : df.1 = true then
      let s1 := df.2
      let now1 := now + (env i).elapse
      let fp := framePresent startTime s1.frameDelay s1.frameNumber now1
      let ab1 := pollEventsAbort (env i).events aborted
      let r := playLoop dsound screenW screenH env startTime (i + 1) fp.1 ab1 s1
      (r.1, r.2.1, r.2.2.1, ⟨(env i).events, fp.2⟩ :: r.2.2.2)
    else (aborted, df.2, now, [])
  else (aborted, s, now, [])
termination_by s.frameCount - s.frameNumber
decreasing_by
  have h1 := (decode_frame_frame_fields dsound screenW screenH s).1 hok
  have h2 := (decode_frame_frame_fields dsound screenW screenH s).2.1
  omega

/-- PmvPlayer::play (pmvplayer.cpp:230-269): load, run the frame loop, tear
down, and report `!aborted`.  On a failed load only the stream object is
released (inside load) and the result is `true`.  Returns the result, the
release trace and the iteration records. -/
def play (dsound : SoundDecoder) (screenW screenH : Nat) (env : Nat → IterEnv)
    (startTime : Nat) (file : Option (List Nat)) :
    Bool × List ReleaseOp × List PlayIter :=
  match load file with
  | none => (true, [ReleaseOp.streamRes], [])
  | some s0 =>
    let r := playLoop dsound screenW screenH env startTime 0 startTime false s0
    (!r.1, (close r.2.1).1, r.2.2.2)

theorem getD_set (l : List Nat) (i j v : Nat) :
    (l.set i v).getD j 0 = if i = j ∧ i < l.length then v else l.getD j 0 := by
  simp only [List.getD_eq_getElem?_getD, List.getElem?_set]
  by_cases h : i = j
  · subst h
    by_cases hl : i < l.length
    · simp [hl]
    · simp [hl, List.getElem?_eq_none (Nat.le_of_not_lt hl)]
  · simp [h]

theorem memcpyList_length (src : List Nat) :
    ∀ (n : Nat) (dest : List Nat) (destPos srcPos : Nat),
      (memcpyList dest destPos src srcPos n).length = dest.length := by
  intro n
  induction n with
  | zero => intro dest destPos srcPos; rfl
  | succ n ih =>
    intro dest destPos srcPos
    rw [memcpyList, ih, List.length_set]

theorem memcpyList_getD (src : List Nat) :
    ∀ (n : Nat) (dest : List Nat) (destPos srcPos i : Nat), i < dest.length →
      (memcpyList dest destPos src srcPos n).getD i 0 =
        if destPos ≤ i ∧ i < destPos + n then src.getD (srcPos + (i - destPos)) 0
        else dest.getD i 0 := by
  intro n
  induction n with
  | zero =>
    intro dest destPos srcPos i hi
    rw [memcpyList, if_neg (by omega)]
  | succ n ih =>
    intro dest destPos srcPos i hi
    rw [memcpyList, ih _ _ _ _ (by rwa [List.length_set]), getD_set]
    by_cases h0 : i = destPos
    · subst h0
      rw [if_neg (by omega), if_pos ⟨rfl, hi⟩, if_pos (by omega)]
      rw [(by omega : srcPos + (i - i) = srcPos)]
    · by_cases h1 : destPos + 1 ≤ i ∧ i < destPos + 1 + n
      · rw [if_pos h1, if_pos (by omega)]
        rw [(by omega : srcPos + 1 + (i - (destPos + 1)) = srcPos + (i - destPos))]
      · rw [if_neg h1, if_neg (fun hc => h0 hc.1.symm), if_neg (by omega)]

/-- C2 counterexample: calling resetNibbleSwitch and then readPixel on a
reader in nibble mode positioned at the byte 0x3C yields the LOW nibble 0xC —
not the high nibble 0x3 the claim asserts — and this happens from either prior
parity state. -/
theorem readPixel_after_reset_not_high :
    ((ValueReader.mk [0x3C] 0 true true).resetNibbleSwitch).readPixel.1 = 0xC ∧
    ((ValueReader.mk [0x3C] 0 true false).resetNibbleSwitch).readPixel.1 = 0xC ∧
    ((0x3C : Nat) >>> 4) &&& 0x0F = 0x3 ∧ (0xC : Nat) ≠ 0x3 := by
  decide

/-- C2 (corrected): in nibble mode, starting from the byte-aligned state that
resetNibbleSwitch establishes, two successive readPixel calls on the byte 0x3C
return 0xC (the LOW nibble) and then 0x3 (the high nibble), with the byte
pointer advancing only when the high nibble is consumed; and after
resetNibbleSwitch the next readPixel returns the low nibble of the current
byte, regardless of prior parity. -/
theorem readPixel_nibble_order (prior : Bool) (buf : List Nat) (pos : Nat) :
    (((ValueReader.mk [0x3C] 0 true prior).resetNibbleSwitch).readPixel.1 = 0xC ∧
      ((ValueReader.mk [0x3C] 0 true prior).resetNibbleSwitch).readPixel.2.pos = 0) ∧
    ((((ValueReader.mk [0x3C] 0 true prior).resetNibbleSwitch).readPixel.2.readPixel.1 = 0x3) ∧
      (((ValueReader.mk [0x3C] 0 true prior).resetNibbleSwitch).readPixel.2.readPixel.2.pos = 1)) ∧
    (((ValueReader.mk buf pos true prior).resetNibbleSwitch).readPixel.1 =
        (buf.getD pos 0) &&& 0x0F ∧
      ((ValueReader.mk buf pos true prior).resetNibbleSwitch).readPixel.2.pos = pos) := by
  cases prior <;>
    simp [ValueReader.readPixel, ValueReader.resetNibbleSwitch] <;> decide

/-- C3: rleDecompress consumes control bytes to the end of the source; on a
well-formed stream (every declared run backed by source bytes) the output
length is the sum of the declared run lengths; the literal-run example
[0x02,AA,BB,CC] decodes to AA BB CC and the repeat-run example [0xFE,0x7F]
decodes to 7F 7F 7F. -/
theorem rleDecompress_spec (src : List Nat) (hwf : rleWellFormed src = true) :
    (rleDecompress src).length = rleDeclaredLen src ∧
    rleDecompress [0x02, 0xAA, 0xBB, 0xCC] = [0xAA, 0xBB, 0xCC] ∧
    rleDecompress [0xFE, 0x7F] = [0x7F, 0x7F, 0x7F] := by
  refine ⟨rleDecompress_length src.length src (le_refl _) hwf, ?_, ?_⟩
  · simp +decide [rleDecompress]
  · simp +decide [rleDecompress]

/-- Witness for C3 at the concrete literal-run buffer. -/
theorem rleDecompress_spec_witness :
    rleWellFormed [0x02, 0xAA, 0xBB, 0xCC] = true ∧
    (rleDecompress [0x02, 0xAA, 0xBB, 0xCC]).length =
      rleDeclaredLen [0x02, 0xAA, 0xBB, 0xCC] :=
  ⟨by simp +decide [rleWellFormed],
    (rleDecompress_spec [0x02, 0xAA, 0xBB, 0xCC] (by simp +decide [rleWellFormed])).1⟩

theorem decompressPaletteLoop_record (count entry : Nat) (triples pal : List Nat) (i : Nat)
    (h3 : triples.length = (count + 1) * 3) (hs : ¬(count = 255 ∧ entry = 255))
    (hi : i < pal.length) :
    (decompressPaletteLoop (count :: entry :: triples) 0 pal).getD i 0 =
      if entry * 3 ≤ i ∧ i < entry * 3 + (count + 1) * 3 then triples.getD (i - entry * 3) 0
      else pal.getD i 0 := by
  rw [decompressPaletteLoop]
  simp only [List.getD_cons_zero, List.getD_cons_succ, List.length_cons, Nat.zero_add]
  rw [if_pos (by omega), if_neg hs]
  rw [decompressPaletteLoop, if_neg (by simp only [List.length_cons]; omega)]
  rw [memcpyList_getD _ _ _ _ _ _ hi]
  by_cases hw : entry * 3 ≤ i ∧ i < entry * 3 + (count + 1) * 3
  · rw [if_pos hw, if_pos hw]
    rw [(by omega : 2 + (i - entry * 3) = (i - entry * 3) + 1 + 1)]
    simp [List.getD_cons_succ]
  · rw [if_neg hw, if_neg hw]

/-- C6: decompressPalette applies records sequentially — a record
`(count, paletteIndex)` followed by `count + 1` RGB triples overwrites exactly
the `3 * (count + 1)` palette bytes starting at entry `paletteIndex` and
leaves every other byte unchanged — terminating at end-of-buffer or at the
sentinel pair (255, 255); in particular the stream [0x00,0x05,R,G,B] sets
exactly palette entry 5 to (R,G,B). -/
theorem decompressPalette_spec :
    (∀ (rest pal : List Nat), decompressPaletteLoop (255 :: 255 :: rest) 0 pal = pal) ∧
    (∀ (count entry : Nat) (triples pal : List Nat) (i : Nat),
      triples.length = (count + 1) * 3 → ¬(count = 255 ∧ entry = 255) → i < pal.length →
      (decompressPaletteLoop (count :: entry :: triples) 0 pal).getD i 0 =
        if entry * 3 ≤ i ∧ i < entry * 3 + (count + 1) * 3 then triples.getD (i - entry * 3) 0
        else pal.getD i 0) ∧
    (∀ (r g b : Nat) (pal : List Nat) (i : Nat), pal.length = 768 → i < 768 →
      (decompressPalette [0, 5, r, g, b] pal 5).getD i 0 =
        if i = 15 then r else if i = 16 then g else if i = 17 then b else pal.getD i 0) := by
  refine ⟨?_, decompressPaletteLoop_record, ?_⟩
  · intro rest pal
    rw [decompressPaletteLoop]
    simp
  · intro r g b pal i hl hi
    have hb := decompressPaletteLoop_record 0 5 [r, g, b] pal i (by simp) (by simp)
      (by omega)
    rw [decompressPalette]
    show (decompressPaletteLoop [0, 5, r, g, b] 0 pal).getD i 0 = _
    rw [hb]
    by_cases h15 : i = 15
    · subst h15
      rw [if_pos (by omega), if_pos rfl]
      norm_num
    · by_cases h16 : i = 16
      · subst h16
        rw [if_pos (by omega), if_neg (by omega), if_pos rfl]
        norm_num
      · by_cases h17 : i = 17
        · subst h17
          rw [if_pos (by omega), if_neg (by omega), if_neg (by omega), if_pos rfl]
          norm_num
        · rw [if_neg (by omega), if_neg h15, if_neg h16, if_neg h17]

/-- Witness for C6: the patch [0x00,0x05,9,8,7] on an all-zero palette sets
byte 15 (the red component of entry 5) to 9. -/
theorem decompressPalette_spec_witness :
    (decompressPalette [0, 5, 9, 8, 7] (List.replicate 768 0) 5).getD 15 0 = 9 := by
  have h := decompressPalette_spec.2.2 9 8 7 (List.replicate 768 0) 15
    (List.length_replicate 768 0) (by omega)
  rw [h, if_pos rfl]

/-- C1 counterexample: the claim covers both decoder variants, but the
streaming/movie decoder never validates its flag bytes.  Here the pixel-stream
flags are 0x04 (reserved bit 2 set), yet decompressMovieImage reports no
failure — it is a total function with no error result — and decodes the image,
mutating every pixel of the previously all-zero surface to 0xAA. -/
theorem decompressMovieImage_ignores_reserved_flags :
    (0x04 : Nat) &&& 0b11111100 ≠ 0 ∧
    (decompressMovieImage [0, 0, 0xAA] (Surface.mk 4 4 4 (List.replicate 16 0))
        0 2 3 2 1 0 2 0 0x04 0).pixels = List.replicate 16 0xAA ∧
    (List.replicate 16 0xAA : List Nat) ≠ List.replicate 16 0 := by
  refine ⟨by decide, ?_, by decide⟩
  simp only [decompressMovieImage]
  simp +decide [movieBands, movieRunGroups, movieRunCmds, movieOpcode, movieBlock,
    blitBlock, memcpyList, le16, rleDecompress]

/-- C1 (corrected): only the keyframe/delta decoder enforces flag validation —
any of bits 2-7 set in the mask-stream or pixel-stream flags (or bits 1-7 of
the command-stream flags) makes decompressImage fail with the
unsupported-format error before any surface mutation (`none`: the C error()
aborts); the movie decoder applies no such check. -/
theorem decompressImage_flag_validation (source : List Nat) (surface : Surface)
    (cmdOffs pixelOffs maskOffs cmdSize pixelSize maskSize lineSize : Nat)
    (cmdFlags pixelFlags maskFlags : Nat) (deltaFrame : Bool)
    (h : maskFlags &&& 0b11111100 ≠ 0 ∨ pixelFlags &&& 0b11111100 ≠ 0) :
    decompressImage source surface cmdOffs pixelOffs maskOffs cmdSize pixelSize maskSize
      lineSize cmdFlags pixelFlags maskFlags deltaFrame = none := by
  rw [decompressImage, if_pos (by tauto)]

/-- Witness for C1: pixel flags 0x04 trip the validation of decompressImage. -/
theorem decompressImage_flag_validation_witness :
    decompressImage [] (Surface.mk 4 4 4 (List.replicate 16 0)) 0 0 0 0 0 0 0 0 0x04 0
      false = none :=
  decompressImage_flag_validation [] (Surface.mk 4 4 4 (List.replicate 16 0))
    0 0 0 0 0 0 0 0 0x04 0 false (Or.inr (by decide))

theorem foldl_set_length (q f : Nat → Nat) :
    ∀ (l : List Nat) (lb : List Nat),
      (l.foldl (fun b j => b.set (q j) (f j)) lb).length = lb.length := by
  intro l
  induction l with
  | nil => intro lb; rfl
  | cons a l ih => intro lb; rw [List.foldl_cons, ih, List.length_set]

theorem foldl_set_getD (q f : Nat → Nat) :
    ∀ (n : Nat) (lb : List Nat) (i : Nat), i < n →
      (∀ j k, j < n → k < n → q j = q k → j = k) → q i < lb.length →
      ((List.range n).foldl (fun b j => b.set (q j) (f j)) lb).getD (q i) 0 = f i := by
  intro n
  induction n with
  | zero => intro lb i hi; omega
  | succ n ih =>
    intro lb i hi hinj hlen
    rw [List.range_succ, List.foldl_append, List.foldl_cons, List.foldl_nil, getD_set]
    by_cases hin : i = n
    · subst hin
      rw [if_pos ⟨rfl, by rw [foldl_set_length]; exact hlen⟩]
    · rw [if_neg (fun hc => hin (hinj i n (by omega) (by omega) hc.1.symm))]
      exact ih lb i (by omega) (fun j k hj hk => hinj j k (by omega) (by omega)) hlen

theorem offsets_injective (width : Nat) (hw : 4 ≤ width) :
    ∀ j k, j < 16 → k < 16 → offsets width j = offsets width k → j = k := by
  intro j k hj hk he
  unfold offsets at he
  interval_cases j <;> interval_cases k <;> omega

theorem writeBlock_getD (width dofs : Nat) (f : Nat → Nat) (lb : List Nat) (i : Nat)
    (hw : 4 ≤ width) (hi : i < 16) (hlen : dofs + offsets width i < lb.length) :
    (writeBlock width dofs f lb).getD (dofs + offsets width i) 0 = f i :=
  foldl_set_getD (fun j => dofs + offsets width j) f 16 lb i hi
    (fun j k hj hk he => offsets_injective width hw j k hj hk (Nat.add_left_cancel he)) hlen

/-- C5: opcode 3 in the two decoder variants.  Keyframe decoder, delta frame:
a strict no-op (state unchanged).  Keyframe decoder, non-delta frame: the
pixel reader is untouched, the mask reader is realigned (resetNibbleSwitch)
and then read 16 times, and those 16 mask-stream values land in the block's
cells as literal pixels.  Movie decoder: always a pure skip — destination,
pixel cursor and mask cursor unchanged, only the block origin advances. -/
theorem opcode3_variants :
    (∀ (width dofs : Nat) (s : ImgState), imgOpcode width true dofs 3 s = s) ∧
    (∀ (width dofs : Nat) (s : ImgState),
      (imgOpcode width false dofs 3 s).pixelReader = s.pixelReader ∧
      (imgOpcode width false dofs 3 s).maskReader =
        (readPixelsN 16 s.maskReader.resetNibbleSwitch).2 ∧
      (∀ i, i < 16 → 4 ≤ width → dofs + offsets width i < s.lineBuf.length →
        (imgOpcode width false dofs 3 s).lineBuf.getD (dofs + offsets width i) 0 =
          (readPixelsN 16 s.maskReader.resetNibbleSwitch).1.getD i 0)) ∧
    (∀ (width height bw : Nat) (pb mb : List Nat) (s : MovState),
      (movieOpcode width height bw pb mb 3 s).dest = s.dest ∧
      (movieOpcode width height bw pb mb 3 s).pixelPos = s.pixelPos ∧
      (movieOpcode width height bw pb mb 3 s).maskPos = s.maskPos ∧
      (movieOpcode width height bw pb mb 3 s).bx = (if s.bx + 4 ≥ bw then 0 else s.bx + 4) ∧
      (movieOpcode width height bw pb mb 3 s).byy =
        (if s.bx + 4 ≥ bw then s.byy + 4 else s.byy)) := by
  refine ⟨?_, ?_, ?_⟩
  · intro width dofs s
    simp +decide only [imgOpcode, if_true, if_false]
  · intro width dofs s
    refine ⟨by simp +decide only [imgOpcode, if_true, if_false],
      by simp +decide only [imgOpcode, if_true, if_false], ?_⟩
    intro i hi hw hlen
    simp +decide only [imgOpcode, if_true, if_false]
    rw [writeBlock_getD width dofs _ s.lineBuf i hw hi hlen]
  · intro width height bw pb mb s
    simp +decide only [movieOpcode, movieBlock, if_true, if_false]
    by_cases hb : s.bx + 4 ≥ bw <;> simp [hb]

/-- Witness for C5: the literal path of the non-delta keyframe opcode 3 at
block cell 0 with a one-byte nibble-mode mask stream. -/
theorem opcode3_variants_witness :
    (imgOpcode 4 false 0 3 (ImgState.mk (List.replicate 2560 0)
        (mkValueReader [] false) (mkValueReader [0x12] true))).lineBuf.getD
        (0 + offsets 4 0) 0 =
      (readPixelsN 16 ((mkValueReader [0x12] true).resetNibbleSwitch)).1.getD 0 0 :=
  (opcode3_variants.2.1 4 0 (ImgState.mk (List.replicate 2560 0)
      (mkValueReader [] false) (mkValueReader [0x12] true))).2.2 0 (by omega) (by omega)
    (by rw [List.length_replicate]; decide)

theorem commitDeltaRow_length (lineBuf : List Nat) :
    ∀ (n lineOfs : Nat) (dest : List Nat) (destPos : Nat),
      (commitDeltaRow lineBuf lineOfs dest destPos n).length = dest.length := by
  intro n
  induction n with
  | zero => intro lineOfs dest destPos; rfl
  | succ n ih =>
    intro lineOfs dest destPos
    simp only [commitDeltaRow]
    rw [ih]
    split <;> simp

theorem commitDeltaRow_getD (lineBuf : List Nat) :
    ∀ (n lineOfs : Nat) (dest : List Nat) (destPos i : Nat), i < dest.length →
      (commitDeltaRow lineBuf lineOfs dest destPos n).getD i 0 =
        if destPos ≤ i ∧ i < destPos + n then
          (if lineBuf.getD (lineOfs + (i - destPos)) 0 ≠ 0 then
            lineBuf.getD (lineOfs + (i - destPos)) 0
          else dest.getD i 0)
        else dest.getD i 0 := by
  intro n
  induction n with
  | zero =>
    intro lineOfs dest destPos i hi
    rw [commitDeltaRow, if_neg (by omega)]
  | succ n ih =>
    intro lineOfs dest destPos i hi
    simp only [commitDeltaRow]
    rw [ih _ _ _ _ (by split <;> simpa using hi)]
    by_cases h0 : i = destPos
    · subst h0
      rw [if_neg (by omega), if_pos (by omega : i ≤ i ∧ i < i + (n + 1)),
        (by omega : lineOfs + (i - i) = lineOfs)]
      by_cases hv : lineBuf.getD lineOfs 0 ≠ 0
      · rw [if_pos hv, if_pos hv, getD_set, if_pos ⟨rfl, hi⟩]
      · rw [if_neg hv, if_neg hv]
    · have hD : (if lineBuf.getD lineOfs 0 ≠ 0 then
          dest.set destPos (lineBuf.getD lineOfs 0) else dest).getD i 0 = dest.getD i 0 := by
        split
        · rw [getD_set, if_neg (fun hc => h0 hc.1.symm)]
        · rfl
      by_cases h1 : destPos + 1 ≤ i ∧ i < destPos + 1 + n
      · rw [if_pos h1, if_pos (by omega : destPos ≤ i ∧ i < destPos + (n + 1)),
          (by omega : lineOfs + 1 + (i - (destPos + 1)) = lineOfs + (i - destPos)), hD]
      · rw [if_neg h1, if_neg (by omega : ¬(destPos ≤ i ∧ i < destPos + (n + 1))), hD]

theorem commitDelta_dest_length (width pitch : Nat) (lineBuf : List Nat) :
    ∀ (f y : Nat) (dest : List Nat) (destPos height : Nat),
      (commitDelta width pitch lineBuf f y dest destPos height).1.length = dest.length := by
  intro f
  induction f with
  | zero => intro y dest destPos height; rfl
  | succ f ih =>
    intro y dest destPos height
    rw [commitDelta]
    split
    · rfl
    · rw [ih, commitDeltaRow_length]

theorem commitDelta_frame (width pitch : Nat) (lineBuf : List Nat) :
    ∀ (f y : Nat) (dest : List Nat) (destPos height i : Nat), i < destPos → i < dest.length →
      (commitDelta width pitch lineBuf f y dest destPos height).1.getD i 0 =
        dest.getD i 0 := by
  intro f
  induction f with
  | zero => intro y dest destPos height i hlt hi; rfl
  | succ f ih =>
    intro y dest destPos height i hlt hi
    rw [commitDelta]
    split
    · rfl
    · rw [ih _ _ _ _ _ (by omega) (by rw [commitDeltaRow_length]; exact hi)]
      rw [commitDeltaRow_getD _ _ _ _ _ _ hi, if_neg (by omega)]

theorem commitDelta_getD (width pitch : Nat) (lineBuf : List Nat) (hwp : width ≤ pitch) :
    ∀ (f y : Nat) (dest : List Nat) (destPos height r x : Nat),
      r < min f height → x < width → destPos + r * pitch + x < dest.length →
      (commitDelta width pitch lineBuf f y dest destPos height).1.getD
          (destPos + r * pitch + x) 0 =
        if lineBuf.getD (x + (y + r) * width) 0 ≠ 0 then lineBuf.getD (x + (y + r) * width) 0
        else dest.getD (destPos + r * pitch + x) 0 := by
  intro f
  induction f with
  | zero => intro y dest destPos height r x hr hx hp; omega
  | succ f ih =>
    intro y dest destPos height r x hr hx hp
    rw [commitDelta, if_neg (by omega : ¬height = 0)]
    cases r with
    | zero =>
      simp only [Nat.zero_mul, Nat.add_zero] at hp ⊢
      rw [commitDelta_frame _ _ _ _ _ _ _ _ _ (by omega)
        (by rw [commitDeltaRow_length]; exact hp)]
      rw [commitDeltaRow_getD _ _ _ _ _ _ hp, if_pos (by omega)]
      rw [(by omega : y * width + (destPos + x - destPos) = x + y * width)]
    | succ r =>
      have hps : destPos + (r + 1) * pitch + x =
          destPos + width + (pitch - width) + r * pitch + x := by
        rw [Nat.succ_mul]; omega
      rw [hps] at hp ⊢
      rw [ih (y + 1) _ _ _ r x (by omega) hx (by rw [commitDeltaRow_length]; exact hp)]
      rw [(by omega : y + 1 + r = y + (r + 1))]
      rw [commitDeltaRow_getD _ _ _ _ _ _ hp,
        if_neg (by omega : ¬(destPos ≤ destPos + width + (pitch - width) + r * pitch + x ∧
          destPos + width + (pitch - width) + r * pitch + x < destPos + width))]

theorem commitFull_dest_length (width pitch : Nat) (lineBuf : List Nat) :
    ∀ (f y : Nat) (dest : List Nat) (destPos height : Nat),
      (commitFull width pitch lineBuf f y dest destPos height).1.length = dest.length := by
  intro f
  induction f with
  | zero => intro y dest destPos height; rfl
  | succ f ih =>
    intro y dest destPos height
    rw [commitFull]
    split
    · rfl
    · rw [ih, memcpyList_length]

theorem commitFull_frame (width pitch : Nat) (lineBuf : List Nat) :
    ∀ (f y : Nat) (dest : List Nat) (destPos height i : Nat), i < destPos → i < dest.length →
      (commitFull width pitch lineBuf f y dest destPos height).1.getD i 0 =
        dest.getD i 0 := by
  intro f
  induction f with
  | zero => intro y dest destPos height i hlt hi; rfl
  | succ f ih =>
    intro y dest destPos height i hlt hi
    rw [commitFull]
    split
    · rfl
    · rw [ih _ _ _ _ _ (by omega) (by rw [memcpyList_length]; exact hi)]
      rw [memcpyList_getD _ _ _ _ _ _ hi, if_neg (by omega)]

theorem commitFull_getD (width pitch : Nat) (lineBuf : List Nat) (hwp : width ≤ pitch) :
    ∀ (f y : Nat) (dest : List Nat) (destPos height r x : Nat),
      r < min f height → x < width → destPos + r * pitch + x < dest.length →
      (commitFull width pitch lineBuf f y dest destPos height).1.getD
          (destPos + r * pitch + x) 0 = lineBuf.getD (x + (y + r) * width) 0 := by
  intro f
  induction f with
  | zero => intro y dest destPos height r x hr hx hp; omega
  | succ f ih =>
    intro y dest destPos height r x hr hx hp
    rw [commitFull, if_neg (by omega : ¬height = 0)]
    cases r with
    | zero =>
      simp only [Nat.zero_mul, Nat.add_zero] at hp ⊢
      rw [commitFull_frame _ _ _ _ _ _ _ _ _ (by omega)
        (by rw [memcpyList_length]; exact hp)]
      rw [memcpyList_getD _ _ _ _ _ _ hp, if_pos (by omega)]
      rw [(by omega : y * width + (destPos + x - destPos) = x + y * width)]
    | succ r =>
      have hps : destPos + (r + 1) * pitch + x = destPos + pitch + r * pitch + x := by
        rw [Nat.succ_mul]; omega
      rw [hps] at hp ⊢
      rw [ih (y + 1) _ _ _ r x (by omega) hx (by rw [memcpyList_length]; exact hp)]
      rw [(by omega : y + 1 + r = y + (r + 1))]

/-- C4: the band commit of decompressImage (graphics.cpp:217-231).  In delta
mode a decoded band cell equal to 0 leaves the corresponding destination
pixel at its prior value and a nonzero cell overwrites it; in non-delta mode
every cell of the band is written to the destination unconditionally. -/
theorem band_commit_delta_transparency (width pitch : Nat) (lineBuf dest : List Nat)
    (destPos height y x : Nat) (hwp : width ≤ pitch) (hy : y < min 4 height) (hx : x < width)
    (hp : destPos + y * pitch + x < dest.length) :
    ((commitDelta width pitch lineBuf 4 0 dest destPos height).1.getD
        (destPos + y * pitch + x) 0 =
      if lineBuf.getD (x + y * width) 0 ≠ 0 then lineBuf.getD (x + y * width) 0
      else dest.getD (destPos + y * pitch + x) 0) ∧
    ((commitFull width pitch lineBuf 4 0 dest destPos height).1.getD
        (destPos + y * pitch + x) 0 = lineBuf.getD (x + y * width) 0) := by
  have h1 := commitDelta_getD width pitch lineBuf hwp 4 0 dest destPos height y x hy hx hp
  have h2 := commitFull_getD width pitch lineBuf hwp 4 0 dest destPos height y x hy hx hp
  rw [Nat.zero_add] at h1 h2
  exact ⟨h1, h2⟩

/-- Witness for C4: a 1-pixel-wide band over a prior value 9 — the nonzero
cell 5 overwrites in both modes. -/
theorem band_commit_delta_transparency_witness :
    (commitDelta 1 1 [5] 4 0 [9, 9, 9, 9] 0 4).1.getD 0 0 = 5 ∧
    (commitFull 1 1 [5] 4 0 [9, 9, 9, 9] 0 4).1.getD 0 0 = 5 := by
  have h := band_commit_delta_transparency 1 1 [5] [9, 9, 9, 9] 0 4 0 0 (by omega)
    (by omega) (by omega) (by simp)
  constructor
  · have := h.1
    simpa using this
  · have := h.2
    simpa using this

/-- C7: decode_frame is atomic per frame — on failure (a chunk tag other than
MFRM, or a short / end-of-stream payload read) it returns false leaving the
palette, the pixel surface, the displayed-screen trace, the audio queue and
the frame counter unchanged; on success the frame counter increments by
exactly one and the screen and audio traces only ever grow by the new frame's
effects. -/
theorem decode_frame_atomic (dsound : SoundDecoder) (screenW screenH : Nat) (s : PmvState) :
    ((decode_frame dsound screenW screenH s).1 = false →
      (decode_frame dsound screenW screenH s).2.paletteRGB = s.paletteRGB ∧
      (decode_frame dsound screenW screenH s).2.surface = s.surface ∧
      (decode_frame dsound screenW screenH s).2.screenOps = s.screenOps ∧
      (decode_frame dsound screenW screenH s).2.audioQueue = s.audioQueue ∧
      (decode_frame dsound screenW screenH s).2.frameNumber = s.frameNumber) ∧
    ((decode_frame dsound screenW screenH s).1 = true →
      (decode_frame dsound screenW screenH s).2.frameNumber = s.frameNumber + 1 ∧
      (∃ t, (decode_frame dsound screenW screenH s).2.audioQueue = s.audioQueue ++ t) ∧
      (∃ t, (decode_frame dsound screenW screenH s).2.screenOps = s.screenOps ++ t)) := by
  rcases hdf : decode_frame dsound screenW screenH s with ⟨ok, s2⟩
  dsimp only
  simp only [decode_frame] at hdf
  split at hdf
  · cases hdf
    simp
  · split at hdf
    · cases hdf
      simp
    · cases hdf
      refine ⟨by simp, fun _ => ⟨?_, ?_, ?_⟩⟩
      · simp [applyFrameEffects_frameNumber]
      · simpa using applyFrameEffects_audioQueue dsound screenW screenH _ _
      · simpa using applyFrameEffects_screenOps dsound screenW screenH _ _

/-- Witness for C7: an empty stream yields a zero tag, which is not MFRM, so
decode_frame fails and the palette is untouched. -/
theorem decode_frame_atomic_witness :
    (decode_frame (fun _ _ _ st => ([], st)) 320 200
        (PmvState.mk (ByteStream.mk [] 0 false) [] none [] [] none 0 0 0 0 0 0 0)).1 =
      false ∧
    (decode_frame (fun _ _ _ st => ([], st)) 320 200
        (PmvState.mk (ByteStream.mk [] 0 false) [] none [] [] none 0 0 0 0 0 0 0)).2.paletteRGB
      = [] := by
  refine ⟨by decide, ?_⟩
  exact ((decode_frame_atomic (fun _ _ _ st => ([], st)) 320 200
    (PmvState.mk (ByteStream.mk [] 0 false) [] none [] [] none 0 0 0 0 0 0 0)).1
    (by decide)).1

/-- C9: the presentation deadline for frame N is `(N-1) * frameDelay`
milliseconds after session start.  The lag diagnostic fires exactly when the
elapsed wall clock already exceeds that target, in which case presentation is
immediate (the clock does not advance); otherwise the driver blocks exactly
until the deadline.  Moreover every successfully decoded frame is presented:
a loop iteration that decodes a frame always emits its presentation record
(no frame-dropping). -/
theorem frame_timing (startTime frameDelay frameNumber now : Nat) (_hN : 1 ≤ frameNumber) :
    ((framePresent startTime frameDelay frameNumber now).2 = true ↔
      ((frameNumber : Int) - 1) * (frameDelay : Int) < (now : Int) - (startTime : Int)) ∧
    ((framePresent startTime frameDelay frameNumber now).2 = true →
      (framePresent startTime frameDelay frameNumber now).1 = now) ∧
    ((framePresent startTime frameDelay frameNumber now).2 = false →
      ((framePresent startTime frameDelay frameNumber now).1 : Int) =
        (startTime : Int) + ((frameNumber : Int) - 1) * (frameDelay : Int)) ∧
    (∀ (dsound : SoundDecoder) (screenW screenH : Nat) (env : Nat → IterEnv)
        (st i nw : Nat) (s : PmvState),
      (env i).quitFlag = false → s.fd.eosFlag = false → s.frameNumber < s.frameCount →
      (decode_frame dsound screenW screenH s).1 = true →
      (playLoop dsound screenW screenH env st i nw false s).2.2.2 ≠ []) := by
  refine ⟨?_, ?_, ?_, ?_⟩
  · unfold framePresent
    by_cases hd : ((frameNumber : Int) - 1) * (frameDelay : Int) -
        ((now : Int) - (startTime : Int)) < 0
    · rw [if_pos hd]
      simp only [true_iff]
      omega
    · rw [if_neg hd]
      simp only [Bool.false_eq_true, false_iff]
      omega
  · unfold framePresent
    by_cases hd : ((frameNumber : Int) - 1) * (frameDelay : Int) -
        ((now : Int) - (startTime : Int)) < 0
    · rw [if_pos hd]
      intro _
      rfl
    · rw [if_neg hd]
      simp
  · unfold framePresent
    by_cases hd : ((frameNumber : Int) - 1) * (frameDelay : Int) -
        ((now : Int) - (startTime : Int)) < 0
    · rw [if_pos hd]
      simp
    · rw [if_neg hd]
      intro _
      push_cast
      omega
  · intro dsound screenW screenH env st i nw s hq he hlt hok
    rw [playLoop, dif_pos ⟨hq, rfl, he, hlt⟩]
    simp only [dif_pos hok]
    simp

/-- Witness for C9: frame 1 decoded 50 ms after a session start at time 0 is
already 50 ms late (target 0 ms), so the lag diagnostic fires and the frame is
presented immediately. -/
theorem frame_timing_witness :
    (framePresent 0 100 1 50).2 = true ∧ (framePresent 0 100 1 50).1 = 50 :=
  ⟨(frame_timing 0 100 1 50 (by omega)).1.mpr (by decide),
    (frame_timing 0 100 1 50 (by omega)).2.1 ((frame_timing 0 100 1 50 (by omega)).1.mpr
      (by decide))⟩

theorem readBytes_length_le (st : ByteStream) (n : Nat) :
    ((st.readBytes n).1).length ≤ n := by
  simp only [ByteStream.readBytes, List.length_take]
  omega

theorem decode_frame_buffer (dsound : SoundDecoder) (screenW screenH : Nat) (s : PmvState)
    (hinv0 : s.frameData = none → s.frameDataSize = 0)
    (hinv1 : ∀ b, s.frameData = some b → b.length = s.frameDataSize) :
    s.frameDataSize ≤ (decode_frame dsound screenW screenH s).2.frameDataSize ∧
    ((decode_frame dsound screenW screenH s).2.allocCount ≠ s.allocCount →
      s.frameDataSize < (readChunk s.fd).2.1 ∨ s.frameData = none) ∧
    ((decode_frame dsound screenW screenH s).1 = true →
      ∃ b, (decode_frame dsound screenW screenH s).2.frameData = some b ∧
        ∀ i, i < (readChunk s.fd).2.1 →
          b.getD i 0 = (((readChunk s.fd).2.2).readBytes (readChunk s.fd).2.1).1.getD i 0) ∧
    ((decode_frame dsound screenW screenH s).2.frameData = none →
      (decode_frame dsound screenW screenH s).2.frameDataSize = 0) ∧
    (∀ b, (decode_frame dsound screenW screenH s).2.frameData = some b →
      b.length = (decode_frame dsound screenW screenH s).2.frameDataSize) := by
  have hple : (((readChunk s.fd).2.2).readBytes (readChunk s.fd).2.1).1.length ≤
      (readChunk s.fd).2.1 := readBytes_length_le _ _
  have hbuf0 : (if (decide (s.frameDataSize < (readChunk s.fd).2.1) ||
        decide (s.frameData = none)) = true then
        List.replicate (readChunk s.fd).2.1 0 else s.frameData.getD []).length =
      (if (decide (s.frameDataSize < (readChunk s.fd).2.1) ||
        decide (s.frameData = none)) = true then
        (readChunk s.fd).2.1 else s.frameDataSize) := by
    split
    · simp
    · next hre =>
      have hnn : s.frameData ≠ none := by
        intro hn
        exact hre (by simp [hn])
      rcases h : s.frameData with _ | b
      · exact absurd h hnn
      · simpa using hinv1 b h
  rcases hdf : decode_frame dsound screenW screenH s with ⟨ok, s2⟩
  dsimp only
  simp only [decode_frame] at hdf
  split at hdf
  · cases hdf
    exact ⟨le_refl _, by simp, by simp, by simpa using hinv0, by simpa using hinv1⟩
  · split at hdf
    · -- short payload read: failure, but the buffer was already reallocated
      cases hdf
      refine ⟨?_, ?_, by simp, by simp, ?_⟩
      · dsimp only
        split
        · next hre =>
          rcases (show s.frameDataSize < (readChunk s.fd).2.1 ∨ s.frameData = none by
            simpa using hre) with h | h
          · omega
          · rw [hinv0 h]; omega
        · exact le_refl _
      · intro hne
        dsimp only at hne
        by_cases hre : (decide (s.frameDataSize < (readChunk s.fd).2.1) ||
            decide (s.frameData = none)) = true
        · exact (show s.frameDataSize < (readChunk s.fd).2.1 ∨ s.frameData = none by
            simpa using hre)
        · rw [if_neg hre] at hne
          exact absurd rfl hne
      · intro b hb
        dsimp only at hb
        rw [Option.some_inj] at hb
        rw [← hb, memcpyList_length, hbuf0]
    · -- success
      cases hdf
      have hns : ¬((decide ((((readChunk s.fd).2.2).readBytes (readChunk s.fd).2.1).1.length <
          (readChunk s.fd).2.1) ||
          (((readChunk s.fd).2.2).readBytes (readChunk s.fd).2.1).2.eosFlag) = true) := by
        assumption
      have hplen : (((readChunk s.fd).2.2).readBytes (readChunk s.fd).2.1).1.length =
          (readChunk s.fd).2.1 := by
        rcases Nat.lt_or_ge (((readChunk s.fd).2.2).readBytes (readChunk s.fd).2.1).1.length
            (readChunk s.fd).2.1 with h | h
        · exact absurd (by simp [h]) hns
        · omega
      refine ⟨?_, ?_, ?_, ?_, ?_⟩
      · dsimp only
        rw [applyFrameEffects_frameDataSize]
        dsimp only
        split
        · next hre =>
          rcases (show s.frameDataSize < (readChunk s.fd).2.1 ∨ s.frameData = none by
            simpa using hre) with h | h
          · omega
          · rw [hinv0 h]; omega
        · exact le_refl _
      · intro hne
        dsimp only at hne
        rw [applyFrameEffects_allocCount] at hne
        dsimp only at hne
        by_cases hre : (decide (s.frameDataSize < (readChunk s.fd).2.1) ||
            decide (s.frameData = none)) = true
        · exact (show s.frameDataSize < (readChunk s.fd).2.1 ∨ s.frameData = none by
            simpa using hre)
        · rw [if_neg hre] at hne
          exact absurd rfl hne
      · intro _
        dsimp only
        rw [applyFrameEffects_frameData]
        dsimp only
        refine ⟨_, rfl, ?_⟩
        intro i hi
        rw [memcpyList_getD _ _ _ _ _ _ (by
          rw [hbuf0]
          split
          · omega
          · next hre =>
            simp at hre
            omega)]
        rw [if_pos (by omega), (by omega : 0 + (i - 0) = i)]
      · dsimp only
        rw [applyFrameEffects_frameData]
        simp
      · intro b hb
        dsimp only at hb
        rw [applyFrameEffects_frameData] at hb
        dsimp only at hb
        rw [Option.some_inj] at hb
        rw [applyFrameEffects_frameDataSize]
        rw [← hb, memcpyList_length, hbuf0]

theorem playLoop_bufferSize (dsound : SoundDecoder) (screenW screenH : Nat)
    (env : Nat → IterEnv) (startTime : Nat) :
    ∀ (fuel i now : Nat) (ab : Bool) (s : PmvState),
      s.frameCount - s.frameNumber ≤ fuel →
      (s.frameData = none → s.frameDataSize = 0) →
      (∀ b, s.frameData = some b → b.length = s.frameDataSize) →
      s.frameDataSize ≤
        (playLoop dsound screenW screenH env startTime i now ab s).2.1.frameDataSize := by
  intro fuel
  induction fuel with
  | zero =>
    intro i now ab s hfuel h0 h1
    by_cases hcond : (env i).quitFlag = false ∧ ab = false ∧ s.fd.eosFlag = false ∧
        s.frameNumber < s.frameCount
    · exact absurd hcond.2.2.2 (by omega)
    · rw [playLoop, dif_neg hcond]
  | succ fuel ih =>
    intro i now ab s hfuel h0 h1
    by_cases hcond : (env i).quitFlag = false ∧ ab = false ∧ s.fd.eosFlag = false ∧
        s.frameNumber < s.frameCount
    · rw [playLoop, dif_pos hcond]
      have hbuf := decode_frame_buffer dsound screenW screenH s h0 h1
      by_cases hok : (decode_frame dsound screenW screenH s).1 = true
      · simp only [dif_pos hok]
        have hff := decode_frame_frame_fields dsound screenW screenH s
        refine le_trans hbuf.1 (ih (i + 1) _ _ _ ?_ hbuf.2.2.2.1 hbuf.2.2.2.2)
        rw [hff.2.1, hff.1 hok]
        omega
      · simp only [dif_neg hok]
        exact hbuf.1
    · rw [playLoop, dif_neg hcond]

/-- C10: across a session the frame payload buffer's capacity never shrinks:
each decode_frame leaves `frameDataSize` no smaller, a reallocation happens
only when the new chunk's size exceeds the current capacity or no buffer
exists yet, after a successful read the first chunkSize bytes of the buffer
are exactly the frame's payload, and across any run of the play loop the
capacity is monotonically non-decreasing. -/
theorem frame_buffer_capacity (dsound : SoundDecoder) (screenW screenH : Nat) (s : PmvState)
    (hinv0 : s.frameData = none → s.frameDataSize = 0)
    (hinv1 : ∀ b, s.frameData = some b → b.length = s.frameDataSize) :
    s.frameDataSize ≤ (decode_frame dsound screenW screenH s).2.frameDataSize ∧
    ((decode_frame dsound screenW screenH s).2.allocCount ≠ s.allocCount →
      s.frameDataSize < (readChunk s.fd).2.1 ∨ s.frameData = none) ∧
    ((decode_frame dsound screenW screenH s).1 = true →
      ∃ b, (decode_frame dsound screenW screenH s).2.frameData = some b ∧
        ∀ i, i < (readChunk s.fd).2.1 →
          b.getD i 0 = (((readChunk s.fd).2.2).readBytes (readChunk s.fd).2.1).1.getD i 0) ∧
    (∀ (env : Nat → IterEnv) (startTime i now : Nat) (ab : Bool),
      s.frameDataSize ≤
        (playLoop dsound screenW screenH env startTime i now ab s).2.1.frameDataSize) := by
  have h := decode_frame_buffer dsound screenW screenH s hinv0 hinv1
  exact ⟨h.1, h.2.1, h.2.2.1, fun env startTime i now ab =>
    playLoop_bufferSize dsound screenW screenH env startTime
      (s.frameCount - s.frameNumber) i now ab s (le_refl _) hinv0 hinv1⟩

/-- Witness for C10 on a fresh session state with no buffer allocated. -/
theorem frame_buffer_capacity_witness :
    (PmvState.mk (ByteStream.mk [] 0 false) [] none [] [] none 0 0 0 0 0 0 0).frameDataSize ≤
      (decode_frame (fun _ _ _ st => ([], st)) 320 200
        (PmvState.mk (ByteStream.mk [] 0 false) [] none [] [] none
          0 0 0 0 0 0 0)).2.frameDataSize :=
  (frame_buffer_capacity (fun _ _ _ st => ([], st)) 320 200
    (PmvState.mk (ByteStream.mk [] 0 false) [] none [] [] none 0 0 0 0 0 0 0)
    (fun _ => rfl) (fun _ hb => nomatch hb)).1

theorem pollEventsAbort_eq :
    ∀ (events : List PmvEvent) (ab : Bool),
      pollEventsAbort events ab = (ab || escIn events) := by
  intro events
  induction events with
  | nil => intro ab; simp [pollEventsAbort, escIn]
  | cons e es ih =>
    intro ab
    have h1 : pollEventsAbort (e :: es) ab =
        pollEventsAbort es (match e with
          | PmvEvent.keyDown k => if k = KEYCODE_ESCAPE then true else ab
          | PmvEvent.otherEvent => ab) := rfl
    rw [h1, ih]
    cases e with
    | keyDown k =>
      by_cases hk : k = KEYCODE_ESCAPE
      · subst hk
        simp [escIn]
      · simp [escIn, hk]
    | otherEvent => simp [escIn]

theorem playLoop_aborted (dsound : SoundDecoder) (screenW screenH : Nat)
    (env : Nat → IterEnv) (startTime : Nat) :
    ∀ (fuel i now : Nat) (ab : Bool) (s : PmvState),
      s.frameCount - s.frameNumber ≤ fuel →
      (playLoop dsound screenW screenH env startTime i now ab s).1 =
        (ab || ((playLoop dsound screenW screenH env startTime i now ab s).2.2.2.any
          (fun it => escIn it.polled))) := by
  intro fuel
  induction fuel with
  | zero =>
    intro i now ab s hfuel
    by_cases hcond : (env i).quitFlag = false ∧ ab = false ∧ s.fd.eosFlag = false ∧
        s.frameNumber < s.frameCount
    · exact absurd hcond.2.2.2 (by omega)
    · rw [playLoop, dif_neg hcond]
      simp
  | succ fuel ih =>
    intro i now ab s hfuel
    by_cases hcond : (env i).quitFlag = false ∧ ab = false ∧ s.fd.eosFlag = false ∧
        s.frameNumber < s.frameCount
    · rw [playLoop, dif_pos hcond]
      by_cases hok : (decode_frame dsound screenW screenH s).1 = true
      · simp only [dif_pos hok]
        have hff := decode_frame_frame_fields dsound screenW screenH s
        rw [ih (i + 1) _ _ ((decode_frame dsound screenW screenH s).2)
          (by rw [hff.2.1, hff.1 hok]; omega)]
        rw [pollEventsAbort_eq]
        simp [Bool.or_assoc]
      · simp only [dif_neg hok]
        simp
    · rw [playLoop, dif_neg hcond]
      simp

theorem playLoop_stops (dsound : SoundDecoder) (screenW screenH : Nat)
    (env : Nat → IterEnv) (startTime : Nat) :
    ∀ (fuel i now : Nat) (ab : Bool) (s : PmvState),
      s.frameCount - s.frameNumber ≤ fuel →
      ∀ j, j < (playLoop dsound screenW screenH env startTime i now ab s).2.2.2.length →
        escIn ((playLoop dsound screenW screenH env startTime i now ab s).2.2.2.getD j
          (PlayIter.mk [] false)).polled = true →
        (playLoop dsound screenW screenH env startTime i now ab s).2.2.2.length = j + 1 := by
  intro fuel
  induction fuel with
  | zero =>
    intro i now ab s hfuel
    by_cases hcond : (env i).quitFlag = false ∧ ab = false ∧ s.fd.eosFlag = false ∧
        s.frameNumber < s.frameCount
    · exact absurd hcond.2.2.2 (by omega)
    · rw [playLoop, dif_neg hcond]
      intro j hj
      simp at hj
  | succ fuel ih =>
    intro i now ab s hfuel
    by_cases hcond : (env i).quitFlag = false ∧ ab = false ∧ s.fd.eosFlag = false ∧
        s.frameNumber < s.frameCount
    · rw [playLoop, dif_pos hcond]
      by_cases hok : (decode_frame dsound screenW screenH s).1 = true
      · simp only [dif_pos hok]
        have hff := decode_frame_frame_fields dsound screenW screenH s
        intro j hj hesc
        cases j with
        | zero =>
          have hab1 : pollEventsAbort (env i).events ab = true := by
            rw [pollEventsAbort_eq]
            simp only [List.getD_cons_zero] at hesc
            simp [hesc]
          rw [hab1] at hj ⊢
          rw [playLoop, dif_neg (fun hc => by exact absurd hc.2.1 (by simp))] at hj ⊢
          simp
        | succ j =>
          simp only [List.getD_cons_succ] at hesc
          simp only [List.length_cons] at hj ⊢
          rw [ih (i + 1) _ _ ((decode_frame dsound screenW screenH s).2)
            (by rw [hff.2.1, hff.1 hok]; omega) j (by omega) hesc]
      · simp only [dif_neg hok]
        intro j hj
        simp at hj
    · rw [playLoop, dif_neg hcond]
      intro j hj
      simp at hj

/-- C8: for every session whose load succeeds, the teardown releases the
surface, the frame buffer, the audio resources and the stream, in that order,
regardless of how the loop ended; the play result is the negation of the
abort flag, which is set exactly when a cancel (ESCAPE key-down) event was
observed among the polled events of some executed iteration; and an iteration
that polls the cancel event is the last iteration — playback stops after that
frame's presentation. -/
theorem play_abort_teardown (dsound : SoundDecoder) (screenW screenH : Nat)
    (env : Nat → IterEnv) (startTime : Nat) (file : Option (List Nat)) (s0 : PmvState)
    (hload : load file = some s0) :
    ((play dsound screenW screenH env startTime file).2.1 =
      [ReleaseOp.surfaceRes, ReleaseOp.frameBufferRes, ReleaseOp.audioRes,
        ReleaseOp.streamRes]) ∧
    ((play dsound screenW screenH env startTime file).1 =
      !((play dsound screenW screenH env startTime file).2.2.any
        (fun it => escIn it.polled))) ∧
    (∀ j, j < (play dsound screenW screenH env startTime file).2.2.length →
      escIn ((play dsound screenW screenH env startTime file).2.2.getD j
        (PlayIter.mk [] false)).polled = true →
      (play dsound screenW screenH env startTime file).2.2.length = j + 1) := by
  simp only [play, hload, close]
  refine ⟨trivial, ?_, ?_⟩
  · rw [playLoop_aborted dsound screenW screenH env startTime
      (s0.frameCount - s0.frameNumber) 0 startTime false s0 (le_refl _)]
    simp
  · exact playLoop_stops dsound screenW screenH env startTime
      (s0.frameCount - s0.frameNumber) 0 startTime false s0 (le_refl _)

/-- Witness for C8: a minimal well-formed PMV container (frame count 0) with
an event-free environment — playback completes and the teardown trace
releases all four resources in order. -/
theorem play_abort_teardown_witness :
    (play (fun _ _ _ st => ([], st)) 320 200 (fun _ => IterEnv.mk false [] 0) 0
        (some ([0x4D, 0x4F, 0x56, 0x45, 0, 0, 0, 0, 0x4D, 0x48, 0x45, 0x44, 0, 0, 0, 0,
          100, 0] ++ List.replicate 824 0))).2.1 =
      [ReleaseOp.surfaceRes, ReleaseOp.frameBufferRes, ReleaseOp.audioRes,
        ReleaseOp.streamRes] := by
  obtain ⟨s0, hs0⟩ : ∃ s0, load (some ([0x4D, 0x4F, 0x56, 0x45, 0, 0, 0, 0, 0x4D, 0x48,
      0x45, 0x44, 0, 0, 0, 0, 100, 0] ++ List.replicate 824 0)) = some s0 :=
    Option.isSome_iff_exists.mp (by decide)
  exact (play_abort_teardown (fun _ _ _ st => ([], st)) 320 200
    (fun _ => IterEnv.mk false [] 0) 0 _ s0 hs0).1

end Made
